import Mathlib

/-!
Shallow embedding of the libcamera pipeline-handler infrastructure
(`src/libcamera/pipeline_handler.cpp`).

Cameras, requests, buffers and media devices are identified by natural
numbers (their C++ pointer identity).  Side effects on external
collaborators (the Camera signals and the CameraManager) are recorded as an
explicit list of `Event` values in the order they are emitted.  Fatal
assertions (`ASSERT`) are modelled by an `Option` result: `none` is an
assertion failure.
-/

namespace Libcam

/-- Completion states of a `Request` (`Request::Status` in the headers:
`RequestPending`, `RequestComplete`, `RequestCancelled`). -/
inductive RequestStatus
  | RequestPending
  | RequestComplete
  | RequestCancelled
deriving DecidableEq, Repr

/-- Completion states of a `Buffer`: pending until completed or cancelled. -/
inductive BufferStatus
  | BufferPending
  | BufferCancelled
deriving DecidableEq, Repr

/-- A capture buffer: its identity and its completion status. -/
structure Buffer where
  id : Nat
  status : BufferStatus
deriving DecidableEq, Repr

/-- Modelled from the spec: `Buffer::cancel` (buffer.cpp is not part of this
repository snapshot).  A buffer is cancelled when capture is aborted before
hardware delivery; cancelling marks the buffer with the cancelled status. -/
def Buffer.cancel (b : Buffer) : Buffer :=
  { b with status := BufferStatus.BufferCancelled }

/-- A capture request: its identity, the set `pending_` of buffers that have
not yet completed, and its completion status. -/
structure Request where
  id : Nat
  pending_ : List Buffer
  status : RequestStatus
deriving DecidableEq, Repr

/-- Modelled from the spec: `Request::complete` (request.cpp is not part of
this repository snapshot).  Marks the request with the given terminal
status. -/
def Request.complete (r : Request) (s : RequestStatus) : Request :=
  { r with status := s }

/-- Modelled from the spec: `Request::completeBuffer` (request.cpp is not
part of this repository snapshot).  Removes the buffer from the request's
pending-buffer tracking and reports whether all buffers contained in the
request have completed, i.e. whether this was the last pending buffer. -/
def Request.completeBuffer (r : Request) (b : Buffer) : Request × Bool :=
  let r' := { r with pending_ := r.pending_.filter (fun x => x.id ≠ b.id) }
  (r', r'.pending_.isEmpty)

/-- Observable side effects on the external collaborators, in emission
order: the Camera signals `bufferCompleted` and `requestComplete`, the
CameraManager calls `addCamera` and `removeCamera`, `Camera::disconnect`,
and the unsubscription from the MediaDevice disconnected signal.  Events
carry the status of the request or buffer at emission time. -/
inductive Event
  | bufferCompleted (reqId : Nat) (bufId : Nat) (status : BufferStatus)
  | requestComplete (reqId : Nat) (status : RequestStatus)
  | addCamera (camId : Nat)
  | removeCamera (camId : Nat)
  | cameraDisconnected (camId : Nat)
  | signalDisconnected
deriving DecidableEq, Repr

/-- `CameraData`: per-camera state owned by the pipeline handler.
`camera_` is the back-reference to the Camera set at registration,
`queuedRequests_` the FIFO list of queued and not yet completed requests. -/
structure CameraData where
  camera_ : Option Nat := none
  queuedRequests_ : List Request := []
deriving DecidableEq, Repr

/-- A non-owning reference to a Camera; `alive` tells whether the weak
reference still resolves to a live camera. -/
structure WeakCamera where
  id : Nat
  alive : Bool
deriving DecidableEq, Repr

/-- The pipeline handler state: the map from registered cameras to their
`CameraData` (an association list, most recent binding first) and the list
`cameras_` of weak references to the cameras the handler created. -/
structure PipelineHandler where
  cameraData_ : List (Nat × CameraData) := []
  cameras_ : List WeakCamera := []
deriving DecidableEq, Repr

/-- `PipelineHandler::queueRequest`: appends the request to the camera's
queue and returns 0. -/
def PipelineHandler.queueRequest (data : CameraData) (request : Request) :
    CameraData × Int :=
  ({ data with queuedRequests_ := data.queuedRequests_ ++ [request] }, 0)

/-- `PipelineHandler::completeBuffer`: emits the camera's `bufferCompleted`
signal for the buffer, then updates the request's buffer tracking, returning
whether all buffers of the request have completed. -/
def PipelineHandler.completeBuffer (request : Request) (buffer : Buffer) :
    Request × Bool × List Event :=
  let (r', last) := request.completeBuffer buffer
  (r', last, [Event.bufferCompleted request.id buffer.id buffer.status])

/-- `PipelineHandler::completeRequest`: asserts that the request is at the
front of the camera's queue (`none` on assertion failure, including the
undefined `front()` of an empty queue), pops it, marks it complete and
signals `Camera::requestComplete`. -/
def PipelineHandler.completeRequest (data : CameraData) (request : Request) :
    Option (CameraData × Request × List Event) :=
  match data.queuedRequests_ with
  | [] => none
  | front :: rest =>
    if request.id = front.id then
      let r' := front.complete RequestStatus.RequestComplete
      some ({ data with queuedRequests_ := rest }, r',
            [Event.requestComplete r'.id r'.status])
    else
      none

/-- The inner loop of `PipelineHandler::stop`: while the request still has
pending buffers, take the first one, cancel it and complete it through
`completeBuffer`.  Returns the drained request and the emitted events. -/
def PipelineHandler.cancelPending (request : Request) : Request × List Event :=
  match h : request.pending_ with
  | [] => (request, [])
  | b :: _ =>
    let b' := b.cancel
    let step := PipelineHandler.completeBuffer request b'
    let next := PipelineHandler.cancelPending step.1
    (next.1, step.2.2 ++ next.2)
termination_by request.pending_.length
decreasing_by
  simp only [PipelineHandler.completeBuffer, Request.completeBuffer, Buffer.cancel, h,
    List.filter_cons]
  simp only [ne_eq, not_true, decide_not, decide_True, Bool.not_true, Bool.false_eq_true,
    if_false, List.length_cons]
  exact Nat.lt_succ_of_le (List.length_filter_le _ _)

/-- The outer loop of `PipelineHandler::stop`: while the queue is not empty,
pop the front request, cancel and complete each of its still-pending
buffers, mark it cancelled and signal `Camera::requestComplete`.  Returns
the drained requests in processing order and the emitted events. -/
def PipelineHandler.stopLoop : List Request → List Request × List Event
  | [] => ([], [])
  | r :: rest =>
    let step := PipelineHandler.cancelPending r
    let r'' := step.1.complete RequestStatus.RequestCancelled
    let next := PipelineHandler.stopLoop rest
    (r'' :: next.1, step.2 ++ (Event.requestComplete r''.id r''.status :: next.2))

/-- `PipelineHandler::stop`: drains the camera's queue unconditionally. -/
def PipelineHandler.stop (data : CameraData) : CameraData × List Request × List Event :=
  let result := PipelineHandler.stopLoop data.queuedRequests_
  ({ data with queuedRequests_ := [] }, result.1, result.2)

/-- `PipelineHandler::registerCamera`: sets the camera back-reference in the
data, stores the data under the camera's identity, retains a weak reference
to the camera and hands the camera to the camera manager. -/
def PipelineHandler.registerCamera (p : PipelineHandler) (camera : WeakCamera)
    (data : CameraData) : PipelineHandler × List Event :=
  let data' := { data with camera_ := some camera.id }
  ({ p with
      cameraData_ := (camera.id, data') :: p.cameraData_,
      cameras_ := p.cameras_ ++ [camera] },
   [Event.addCamera camera.id])

/-- `PipelineHandler::cameraData`: asserts that the camera is registered
(`none` on assertion failure) and returns its `CameraData`. -/
def PipelineHandler.cameraData (p : PipelineHandler) (camId : Nat) :
    Option CameraData :=
  p.cameraData_.lookup camId

/-- The loop of `PipelineHandler::disconnect`: for every camera reference,
skip it if the weak reference no longer resolves, otherwise call
`Camera::disconnect` and `CameraManager::removeCamera`. -/
def PipelineHandler.disconnectLoop (cameras : List WeakCamera) : List Event :=
  match cameras with
  | [] => []
  | c :: rest =>
    if c.alive then
      Event.cameraDisconnected c.id :: Event.removeCamera c.id ::
        PipelineHandler.disconnectLoop rest
    else
      PipelineHandler.disconnectLoop rest

/-- `PipelineHandler::disconnect`: notifies every still-alive camera and
unregisters it from the camera manager, then clears the camera list. -/
def PipelineHandler.disconnect (p : PipelineHandler) : PipelineHandler × List Event :=
  ({ p with cameras_ := [] }, PipelineHandler.disconnectLoop p.cameras_)

/-- `PipelineHandler::mediaDeviceDisconnected`: unsubscribes from the media
device's disconnected signal, returns if the handler has no cameras, and
otherwise cascades through `disconnect`. -/
def PipelineHandler.mediaDeviceDisconnected (p : PipelineHandler) :
    PipelineHandler × List Event :=
  if p.cameras_.isEmpty then
    (p, [Event.signalDisconnected])
  else
    let (p', evs) := p.disconnect
    (p', Event.signalDisconnected :: evs)

/-- A pipeline handler factory: a named constructor object. -/
structure PipelineHandlerFactory where
  name_ : String
deriving DecidableEq, Repr

/-- `PipelineHandlerFactory::registerType`: appends the factory to the
process-wide list of factories. -/
def PipelineHandlerFactory.registerType (factories : List PipelineHandlerFactory)
    (factory : PipelineHandlerFactory) : List PipelineHandlerFactory :=
  factories ++ [factory]

/-- The set of currently acquired media devices (`ResourceHandle`s): a
handle is `Acquired` when its identity is in the list, `Free` otherwise. -/
structure ResourceState where
  acquired : List Nat := []
deriving DecidableEq, Repr

/-- Modelled from the spec: `MediaDevice::acquire` (media_device.cpp is not
part of this repository snapshot).  Exclusive acquisition: succeeds only
when the handle is present in the system and currently `Free`. -/
def ResourceState.acquire (s : ResourceState) (present : Nat → Bool) (h : Nat) :
    Option ResourceState :=
  if present h = true ∧ h ∉ s.acquired then
    some { acquired := h :: s.acquired }
  else
    none

/-- Modelled from the spec: `MediaDevice::release` (media_device.cpp is not
part of this repository snapshot).  Returns the handle to the `Free`
state. -/
def ResourceState.release (s : ResourceState) (h : Nat) : ResourceState :=
  { acquired := s.acquired.erase h }

/-- Modelled from the spec: the acquisition loop of the documented
`PipelineHandler::match` contract (the function is pure virtual, implemented
only by derived handlers outside this snapshot).  Acquires the required
handles in turn; if any required handle cannot be acquired, releases every
handle acquired during this attempt and reports no match. -/
def PipelineHandler.matchGo (present : Nat → Bool) (s : ResourceState)
    (required : List Nat) (got : List Nat) : ResourceState × Bool :=
  match required with
  | [] => (s, true)
  | h :: rest =>
    match s.acquire present h with
    | some s' => PipelineHandler.matchGo present s' rest (h :: got)
    | none => (got.foldl ResourceState.release s, false)

/-- Modelled from the spec: one `PipelineHandler::match` attempt, starting
with no handle acquired during the attempt. -/
def PipelineHandler.matchAttempt (present : Nat → Bool) (s : ResourceState)
    (required : List Nat) : ResourceState × Bool :=
  PipelineHandler.matchGo present s required []

/-! Helper lemmas shared by several developments below. -/

theorem filter_ne_id_of_not_mem (l : List Buffer) (i : Nat)
    (h : i ∉ l.map Buffer.id) :
    l.filter (fun x => x.id ≠ i) = l := by
  induction l with
  | nil => rfl
  | cons a t ih =>
    simp only [List.map_cons, List.mem_cons, not_or] at h
    rw [List.filter_cons_of_pos, ih h.2]
    simp [Ne.symm h.1]

theorem length_filter_ne_id (l : List Buffer) (i : Nat)
    (hnd : (l.map Buffer.id).Nodup) (hm : i ∈ l.map Buffer.id) :
    (l.filter (fun x => x.id ≠ i)).length + 1 = l.length := by
  induction l with
  | nil => simp at hm
  | cons a t ih =>
    simp only [List.map_cons, List.nodup_cons] at hnd
    simp only [List.map_cons, List.mem_cons] at hm
    rcases hm with hm | hm
    · subst hm
      rw [List.filter_cons_of_neg (by simp), filter_ne_id_of_not_mem t a.id hnd.1]
      simp
    · have hne : a.id ≠ i := by
        intro hcon
        exact hnd.1 (hcon ▸ hm)
      rw [List.filter_cons_of_pos (by simp [hne])]
      simp only [List.length_cons]
      rw [ih hnd.2 hm]

theorem lookup_eq_none_of_not_mem_keys {β : Type} (l : List (Nat × β)) (k : Nat)
    (h : k ∉ l.map Prod.fst) : l.lookup k = none := by
  induction l with
  | nil => rfl
  | cons a t ih =>
    simp only [List.map_cons, List.mem_cons, not_or] at h
    have hb : (k == a.1) = false := beq_eq_false_iff_ne.mpr h.1
    rw [List.lookup_cons, hb]
    exact ih h.2

/-! Concrete example values used by the witness theorems. -/

def exReqA : Request :=
  { id := 1, pending_ := [], status := RequestStatus.RequestPending }

def exReqB : Request :=
  { id := 2, pending_ := [], status := RequestStatus.RequestPending }

def exData : CameraData :=
  { camera_ := none, queuedRequests_ := [exReqA, exReqB] }

/-- C10: the base implementation of `PipelineHandler::queueRequest` always
returns 0 and unconditionally appends the request at the back of the
camera's queue, with no capacity limit and no running check, so the base
class by itself never produces a queuing failure. -/
theorem queueRequest_always_succeeds (data : CameraData) (request : Request) :
    (PipelineHandler.queueRequest data request).2 = 0 ∧
    (PipelineHandler.queueRequest data request).1.queuedRequests_ =
      data.queuedRequests_ ++ [request] ∧
    (PipelineHandler.queueRequest data request).1.queuedRequests_.length =
      data.queuedRequests_.length + 1 := by
  refine ⟨rfl, rfl, ?_⟩
  simp [PipelineHandler.queueRequest]

/-- C2: calling `PipelineHandler::completeRequest` with a request that is
not at the front of the camera's in-flight queue (including with an empty
queue) is a fatal assertion failure: the call returns `none`, so the
request is never silently completed or reordered. -/
theorem completeRequest_not_front_fatal (data : CameraData) (request : Request)
    (h : ∀ front ∈ data.queuedRequests_.head?, request.id ≠ front.id) :
    PipelineHandler.completeRequest data request = none := by
  cases hq : data.queuedRequests_ with
  | nil => simp [PipelineHandler.completeRequest, hq]
  | cons front rest =>
    have hne : request.id ≠ front.id := h front (by simp [hq])
    simp [PipelineHandler.completeRequest, hq, hne]

/-- C2 witness: completing the second of two queued requests is rejected. -/
theorem completeRequest_not_front_fatal_witness :
    PipelineHandler.completeRequest exData exReqB = none := by
  refine completeRequest_not_front_fatal exData exReqB ?_
  intro front hf
  simp only [exData, exReqA, List.head?_cons, Option.mem_def, Option.some.injEq] at hf
  subst hf
  decide

/-- C3: calling `PipelineHandler::completeRequest` with the front request of
a non-empty queue removes exactly that request (the remaining queue is the
old tail, untouched), marks it with the `RequestComplete` terminal status,
and signals `Camera::requestComplete` exactly once with that status. -/
theorem completeRequest_front_spec (data : CameraData) (front : Request)
    (rest : List Request) (h : data.queuedRequests_ = front :: rest) :
    ∃ d' r',
      PipelineHandler.completeRequest data front =
        some (d', r', [Event.requestComplete front.id RequestStatus.RequestComplete]) ∧
      d'.queuedRequests_ = rest ∧
      d'.queuedRequests_.length + 1 = data.queuedRequests_.length ∧
      d'.camera_ = data.camera_ ∧
      r'.id = front.id ∧
      r'.pending_ = front.pending_ ∧
      r'.status = RequestStatus.RequestComplete ∧
      r'.status ≠ RequestStatus.RequestCancelled := by
  refine ⟨{ data with queuedRequests_ := rest },
          { front with status := RequestStatus.RequestComplete },
          ?_, rfl, by simp [h], rfl, rfl, rfl, rfl, by simp⟩
  simp [PipelineHandler.completeRequest, h, Request.complete]

/-- C3 witness: completing the front of a two-request queue. -/
theorem completeRequest_front_spec_witness :
    ∃ d' r',
      PipelineHandler.completeRequest exData exReqA =
        some (d', r', [Event.requestComplete exReqA.id RequestStatus.RequestComplete]) ∧
      d'.queuedRequests_ = [exReqB] ∧
      d'.queuedRequests_.length + 1 = exData.queuedRequests_.length ∧
      d'.camera_ = exData.camera_ ∧
      r'.id = exReqA.id ∧
      r'.pending_ = exReqA.pending_ ∧
      r'.status = RequestStatus.RequestComplete ∧
      r'.status ≠ RequestStatus.RequestCancelled :=
  completeRequest_front_spec exData exReqA [exReqB] rfl

/-- C9: `PipelineHandlerFactory::registerType` appends each factory to the
single factory list; a sequence of registrations extends the list by
exactly the registered factories in registration order, never removing or
reordering an existing entry, and two factories with the same name are both
kept (no deduplication). -/
theorem registerType_spec :
    (∀ (init regs : List PipelineHandlerFactory),
        regs.foldl PipelineHandlerFactory.registerType init = init ++ regs) ∧
    (∀ (l : List PipelineHandlerFactory) (f : PipelineHandlerFactory),
        PipelineHandlerFactory.registerType l f = l ++ [f]) ∧
    (∀ f g : PipelineHandlerFactory, f.name_ = g.name_ →
        [f, g].foldl PipelineHandlerFactory.registerType [] = [f, g]) := by
  refine ⟨?_, fun l f => rfl, fun f g _ => rfl⟩
  intro init regs
  induction regs generalizing init with
  | nil => simp
  | cons a t ih =>
    simp only [List.foldl_cons, PipelineHandlerFactory.registerType, ih]
    simp

/-- C9 witness: registering two factories with the same name keeps both. -/
theorem registerType_spec_witness :
    [({ name_ := "uvcvideo" } : PipelineHandlerFactory), { name_ := "uvcvideo" }].foldl
      PipelineHandlerFactory.registerType [] =
      [{ name_ := "uvcvideo" }, { name_ := "uvcvideo" }] :=
  registerType_spec.2.2 { name_ := "uvcvideo" } { name_ := "uvcvideo" } rfl

/-- C8: after `PipelineHandler::registerCamera`, `cameraData` returns
exactly the `CameraData` passed at registration (with the camera
back-reference set); registering a different camera leaves the lookup
unchanged; and looking up a camera never registered with this handler is a
fatal assertion failure (`none`). -/
theorem cameraData_spec :
    (∀ (p : PipelineHandler) (camera : WeakCamera) (data : CameraData),
        PipelineHandler.cameraData (p.registerCamera camera data).1 camera.id =
          some { data with camera_ := some camera.id }) ∧
    (∀ (p : PipelineHandler) (camera : WeakCamera) (data : CameraData) (camId : Nat),
        camId ≠ camera.id →
        PipelineHandler.cameraData (p.registerCamera camera data).1 camId =
          PipelineHandler.cameraData p camId) ∧
    (∀ (p : PipelineHandler) (camId : Nat),
        camId ∉ p.cameraData_.map Prod.fst →
        PipelineHandler.cameraData p camId = none) := by
  refine ⟨?_, ?_, ?_⟩
  · intro p camera data
    simp [PipelineHandler.cameraData, PipelineHandler.registerCamera, List.lookup_cons]
  · intro p camera data camId hne
    have hb : (camId == camera.id) = false := beq_eq_false_iff_ne.mpr hne
    simp [PipelineHandler.cameraData, PipelineHandler.registerCamera, List.lookup_cons, hb]
  · intro p camId h
    exact lookup_eq_none_of_not_mem_keys p.cameraData_ camId h

/-- C8 witness: lookup of a registered camera returns its data, and lookup
of an unregistered camera fails the assertion. -/
theorem cameraData_spec_witness :
    PipelineHandler.cameraData
        (PipelineHandler.registerCamera { cameraData_ := [], cameras_ := [] }
          { id := 5, alive := true } { camera_ := none, queuedRequests_ := [] }).1 5 =
      some { camera_ := some 5, queuedRequests_ := [] } ∧
    PipelineHandler.cameraData
        (PipelineHandler.registerCamera { cameraData_ := [], cameras_ := [] }
          { id := 5, alive := true } { camera_ := none, queuedRequests_ := [] }).1 7 =
      none :=
  ⟨cameraData_spec.1 { cameraData_ := [], cameras_ := [] } { id := 5, alive := true }
      { camera_ := none, queuedRequests_ := [] },
   cameraData_spec.2.2
      (PipelineHandler.registerCamera { cameraData_ := [], cameras_ := [] }
        { id := 5, alive := true } { camera_ := none, queuedRequests_ := [] }).1 7
      (by decide)⟩

/-- C4: one call to `PipelineHandler::completeBuffer` emits exactly one
`bufferCompleted` notification for that buffer, removes the buffer from the
request's pending tracking, and returns true exactly when that buffer was
the last pending buffer; the request's terminal status is unchanged, and
the function never touches the camera's queue (it takes no queue state). -/
theorem completeBuffer_spec (request : Request) (buffer : Buffer)
    (hnd : (request.pending_.map Buffer.id).Nodup)
    (hmem : buffer.id ∈ request.pending_.map Buffer.id) :
    ∃ r' last,
      PipelineHandler.completeBuffer request buffer =
        (r', last, [Event.bufferCompleted request.id buffer.id buffer.status]) ∧
      (∀ x : Buffer, x ∈ r'.pending_ ↔ x ∈ request.pending_ ∧ x.id ≠ buffer.id) ∧
      r'.pending_.length + 1 = request.pending_.length ∧
      (last = true ↔ r'.pending_ = []) ∧
      (last = true ↔ request.pending_.length = 1) ∧
      r'.status = request.status ∧
      r'.id = request.id := by
  have hlen := length_filter_ne_id request.pending_ buffer.id hnd hmem
  refine ⟨{ request with pending_ := request.pending_.filter (fun x => x.id ≠ buffer.id) },
          (request.pending_.filter (fun x : Buffer => x.id ≠ buffer.id)).isEmpty,
          rfl, ?_, hlen, ?_, ?_, rfl, rfl⟩
  · intro x
    simp [List.mem_filter]
  · simp [List.isEmpty_iff]
  · rw [List.isEmpty_iff, ← List.length_eq_zero]
    omega

def exBufReq : Request :=
  { id := 3,
    pending_ := [{ id := 10, status := BufferStatus.BufferPending },
                 { id := 11, status := BufferStatus.BufferPending }],
    status := RequestStatus.RequestPending }

/-- C4 witness: completing one of two pending buffers of a request. -/
theorem completeBuffer_spec_witness :
    ∃ r' last,
      PipelineHandler.completeBuffer exBufReq { id := 10, status := BufferStatus.BufferPending } =
        (r', last,
         [Event.bufferCompleted exBufReq.id 10 BufferStatus.BufferPending]) ∧
      (∀ x : Buffer, x ∈ r'.pending_ ↔ x ∈ exBufReq.pending_ ∧ x.id ≠ 10) ∧
      r'.pending_.length + 1 = exBufReq.pending_.length ∧
      (last = true ↔ r'.pending_ = []) ∧
      (last = true ↔ exBufReq.pending_.length = 1) ∧
      r'.status = exBufReq.status ∧
      r'.id = exBufReq.id :=
  completeBuffer_spec exBufReq { id := 10, status := BufferStatus.BufferPending }
    (by decide) (by decide)

/-- One application-level operation on a camera's queue: submit a request
or complete one. -/
inductive Op
  | queueOp (request : Request)
  | completeOp (request : Request)
deriving DecidableEq, Repr

/-- Run a sequence of queue operations through the base-class
implementations; a failed assertion in `completeRequest` aborts the run. -/
def runOps : CameraData → List Op → Option CameraData
  | data, [] => some data
  | data, Op.queueOp r :: rest => runOps (PipelineHandler.queueRequest data r).1 rest
  | data, Op.completeOp r :: rest =>
    match PipelineHandler.completeRequest data r with
    | some (d', _, _) => runOps d' rest
    | none => none

/-- Number of `queueRequest` calls in a sequence of operations. -/
def countQueueOps : List Op → Nat
  | [] => 0
  | Op.queueOp _ :: rest => countQueueOps rest + 1
  | Op.completeOp _ :: rest => countQueueOps rest

/-- Number of `completeRequest` calls in a sequence of operations. -/
def countCompleteOps : List Op → Nat
  | [] => 0
  | Op.queueOp _ :: rest => countCompleteOps rest
  | Op.completeOp _ :: rest => countCompleteOps rest + 1

theorem completeRequest_some_length (data : CameraData) (request : Request)
    (d' : CameraData) (r' : Request) (evs : List Event)
    (h : PipelineHandler.completeRequest data request = some (d', r', evs)) :
    d'.queuedRequests_.length + 1 = data.queuedRequests_.length := by
  cases hq : data.queuedRequests_ with
  | nil => simp [PipelineHandler.completeRequest, hq] at h
  | cons front rest =>
    by_cases hid : request.id = front.id
    · simp only [PipelineHandler.completeRequest, hq, if_pos hid, Option.some.injEq,
        Prod.mk.injEq] at h
      rw [← h.1]
      simp
    · simp [PipelineHandler.completeRequest, hq, hid] at h

theorem runOps_length : ∀ (ops : List Op) (data d' : CameraData),
    runOps data ops = some d' →
    d'.queuedRequests_.length + countCompleteOps ops =
      data.queuedRequests_.length + countQueueOps ops := by
  intro ops
  induction ops with
  | nil =>
    intro data d' h
    simp only [runOps, Option.some.injEq] at h
    rw [← h, countCompleteOps, countQueueOps]
  | cons op rest ih =>
    intro data d' h
    cases op with
    | queueOp r =>
      simp only [runOps] at h
      have hrec := ih _ _ h
      simp only [PipelineHandler.queueRequest, List.length_append, List.length_cons,
        List.length_nil] at hrec
      simp only [countQueueOps, countCompleteOps]
      omega
    | completeOp r =>
      cases hc : PipelineHandler.completeRequest data r with
      | none => simp [runOps, hc] at h
      | some res =>
        obtain ⟨d1, r1, evs1⟩ := res
        simp only [runOps, hc] at h
        have hrec := ih _ _ h
        have hlen := completeRequest_some_length data r d1 r1 evs1 hc
        simp only [countQueueOps, countCompleteOps]
        omega

/-- C5: `queueRequest` appends exactly one request at the back of the
queue, increasing the length by one; a successful (front-targeting)
`completeRequest` decreases the length by exactly one; and for every
operation sequence that runs without an assertion failure from the empty
queue, the final queue length is the number of queued minus completed
operations, so the queue is empty exactly when every queued request has
been completed. -/
theorem stateMachine_spec :
    (∀ (data : CameraData) (r : Request),
        (PipelineHandler.queueRequest data r).1.queuedRequests_ =
          data.queuedRequests_ ++ [r] ∧
        (PipelineHandler.queueRequest data r).1.queuedRequests_.length =
          data.queuedRequests_.length + 1) ∧
    (∀ (data : CameraData) (r : Request) (d' : CameraData) (r' : Request)
        (evs : List Event),
        PipelineHandler.completeRequest data r = some (d', r', evs) →
        d'.queuedRequests_.length + 1 = data.queuedRequests_.length) ∧
    (∀ (ops : List Op) (d' : CameraData),
        runOps { camera_ := none, queuedRequests_ := [] } ops = some d' →
        d'.queuedRequests_.length + countCompleteOps ops = countQueueOps ops ∧
        (d'.queuedRequests_ = [] ↔ countCompleteOps ops = countQueueOps ops)) := by
  refine ⟨fun data r => ⟨rfl, by simp [PipelineHandler.queueRequest]⟩,
          completeRequest_some_length, ?_⟩
  intro ops d' h
  have hlen := runOps_length ops _ d' h
  simp only [List.length_nil, Nat.zero_add] at hlen
  constructor
  · omega
  · rw [← List.length_eq_zero]
    omega

def exOps : List Op := [Op.queueOp exReqA, Op.queueOp exReqB, Op.completeOp exReqA]

/-- C5 witness: queue two requests, complete the first in FIFO order. -/
theorem stateMachine_spec_witness :
    ({ camera_ := none, queuedRequests_ := [exReqB] } : CameraData).queuedRequests_.length +
        countCompleteOps exOps = countQueueOps exOps ∧
    (({ camera_ := none, queuedRequests_ := [exReqB] } : CameraData).queuedRequests_ = [] ↔
        countCompleteOps exOps = countQueueOps exOps) :=
  stateMachine_spec.2.2 exOps { camera_ := none, queuedRequests_ := [exReqB] } (by decide)

theorem releaseFold (got base : List Nat) (hnd : got.Nodup)
    (hdisj : ∀ h ∈ got, h ∉ base) :
    got.foldl ResourceState.release { acquired := got ++ base } =
      ({ acquired := base } : ResourceState) := by
  induction got with
  | nil => simp
  | cons h t ih =>
    simp only [List.foldl_cons]
    have hstep : ResourceState.release { acquired := (h :: t) ++ base } h =
        { acquired := t ++ base } := by
      simp [ResourceState.release]
    rw [hstep]
    exact ih (List.nodup_cons.mp hnd).2 (fun x hx => hdisj x (List.mem_cons_of_mem h hx))

theorem matchGo_rollback (present : Nat → Bool) :
    ∀ (required : List Nat) (s : ResourceState) (got base : List Nat),
    s.acquired = got ++ base → got.Nodup → (∀ h ∈ got, h ∉ base) →
    (PipelineHandler.matchGo present s required got).2 = false →
    (PipelineHandler.matchGo present s required got).1.acquired = base := by
  intro required
  induction required with
  | nil =>
    intro s got base hs hnd hd hf
    simp [PipelineHandler.matchGo] at hf
  | cons h rest ih =>
    intro s got base hs hnd hd hf
    by_cases hacq : present h = true ∧ h ∉ s.acquired
    · have hsome : s.acquire present h = some { acquired := h :: s.acquired } := by
        unfold ResourceState.acquire
        rw [if_pos hacq]
      have hstep : PipelineHandler.matchGo present s (h :: rest) got =
          PipelineHandler.matchGo present { acquired := h :: s.acquired } rest (h :: got) := by
        simp [PipelineHandler.matchGo, hsome]
      rw [hstep] at hf ⊢
      have hnotgot : h ∉ got := fun hm => hacq.2 (by rw [hs]; exact List.mem_append_left base hm)
      have hnotbase : h ∉ base := fun hm => hacq.2 (by rw [hs]; exact List.mem_append_right got hm)
      refine ih { acquired := h :: s.acquired } (h :: got) base (by simp [hs])
        (List.nodup_cons.mpr ⟨hnotgot, hnd⟩) ?_ hf
      intro x hx
      rcases List.mem_cons.mp hx with hx | hx
      · exact hx ▸ hnotbase
      · exact hd x hx
    · have hnone : s.acquire present h = none := by
        unfold ResourceState.acquire
        rw [if_neg hacq]
      have hstep : PipelineHandler.matchGo present s (h :: rest) got =
          (got.foldl ResourceState.release s, false) := by
        simp [PipelineHandler.matchGo, hnone]
      rw [hstep]
      have hs' : s = { acquired := got ++ base } := by
        cases s
        simpa using hs
      rw [hs', releaseFold got base hnd hd]

/-- C6: a `match` attempt (modelled from the documented contract, the
function being pure virtual) that fails to acquire a required handle
releases every handle acquired during the attempt: after a failed attempt
the set of acquired handles is exactly what it was before. -/
theorem match_rollback (present : Nat → Bool) (s : ResourceState) (required : List Nat)
    (h : (PipelineHandler.matchAttempt present s required).2 = false) :
    (PipelineHandler.matchAttempt present s required).1.acquired = s.acquired := by
  unfold PipelineHandler.matchAttempt at h ⊢
  exact matchGo_rollback present required s [] s.acquired rfl List.nodup_nil (by simp) h

/-- C6 witness: acquiring 2 of 3 required handles, then failing on the
third, leaves every handle free. -/
theorem match_rollback_witness :
    (PipelineHandler.matchAttempt (fun n => decide (n < 2))
        { acquired := [] } [0, 1, 5]).1.acquired = ([] : List Nat) :=
  match_rollback (fun n => decide (n < 2)) { acquired := [] } [0, 1, 5] (by decide)

theorem disconnectLoop_count_not_mem (cameras : List WeakCamera) (i : Nat)
    (h : i ∉ cameras.map WeakCamera.id) :
    (PipelineHandler.disconnectLoop cameras).count (Event.cameraDisconnected i) = 0 ∧
    (PipelineHandler.disconnectLoop cameras).count (Event.removeCamera i) = 0 := by
  induction cameras with
  | nil => exact ⟨rfl, rfl⟩
  | cons c rest ih =>
    simp only [List.map_cons, List.mem_cons, not_or] at h
    obtain ⟨ih1, ih2⟩ := ih h.2
    by_cases hal : c.alive = true
    · simp only [PipelineHandler.disconnectLoop, hal, if_true]
      refine ⟨?_, ?_⟩
      · rw [List.count_cons_of_ne (by simp [h.1]), List.count_cons_of_ne (by simp), ih1]
      · rw [List.count_cons_of_ne (by simp), List.count_cons_of_ne (by simp [h.1]), ih2]
    · simp only [PipelineHandler.disconnectLoop, if_neg hal]
      exact ⟨ih1, ih2⟩

theorem disconnectLoop_count_signal (cameras : List WeakCamera) :
    (PipelineHandler.disconnectLoop cameras).count Event.signalDisconnected = 0 := by
  induction cameras with
  | nil => rfl
  | cons c rest ih =>
    by_cases hal : c.alive = true
    · simp only [PipelineHandler.disconnectLoop, hal, if_true]
      rw [List.count_cons_of_ne (by simp), List.count_cons_of_ne (by simp), ih]
    · simp only [PipelineHandler.disconnectLoop, if_neg hal]
      exact ih

theorem disconnectLoop_count_alive (cameras : List WeakCamera) (c : WeakCamera)
    (hnd : (cameras.map WeakCamera.id).Nodup) (hc : c ∈ cameras) (ha : c.alive = true) :
    (PipelineHandler.disconnectLoop cameras).count (Event.cameraDisconnected c.id) = 1 ∧
    (PipelineHandler.disconnectLoop cameras).count (Event.removeCamera c.id) = 1 := by
  induction cameras with
  | nil => simp at hc
  | cons a rest ih =>
    simp only [List.map_cons, List.nodup_cons] at hnd
    rcases List.mem_cons.mp hc with rfl | hmem
    · simp only [PipelineHandler.disconnectLoop, ha, if_true]
      obtain ⟨hz1, hz2⟩ := disconnectLoop_count_not_mem rest c.id hnd.1
      refine ⟨?_, ?_⟩
      · rw [List.count_cons_self, List.count_cons_of_ne (by simp), hz1]
      · rw [List.count_cons_of_ne (by simp), List.count_cons_self, hz2]
    · have haid : a.id ≠ c.id :=
        fun he => hnd.1 (he ▸ List.mem_map_of_mem WeakCamera.id hmem)
      have hrec := ih hnd.2 hmem
      by_cases hal : a.alive = true
      · simp only [PipelineHandler.disconnectLoop, hal, if_true]
        refine ⟨?_, ?_⟩
        · rw [List.count_cons_of_ne (by simp [haid.symm]), List.count_cons_of_ne (by simp),
            hrec.1]
        · rw [List.count_cons_of_ne (by simp), List.count_cons_of_ne (by simp [haid.symm]),
            hrec.2]
      · simp only [PipelineHandler.disconnectLoop, if_neg hal]
        exact hrec

theorem disconnectLoop_count_dead (cameras : List WeakCamera) (c : WeakCamera)
    (hnd : (cameras.map WeakCamera.id).Nodup) (hc : c ∈ cameras) (ha : c.alive = false) :
    (PipelineHandler.disconnectLoop cameras).count (Event.cameraDisconnected c.id) = 0 ∧
    (PipelineHandler.disconnectLoop cameras).count (Event.removeCamera c.id) = 0 := by
  induction cameras with
  | nil => simp at hc
  | cons a rest ih =>
    simp only [List.map_cons, List.nodup_cons] at hnd
    rcases List.mem_cons.mp hc with rfl | hmem
    · have hal : ¬(c.alive = true) := by rw [ha]; exact Bool.false_ne_true
      simp only [PipelineHandler.disconnectLoop, if_neg hal]
      exact disconnectLoop_count_not_mem rest c.id hnd.1
    · have haid : a.id ≠ c.id :=
        fun he => hnd.1 (he ▸ List.mem_map_of_mem WeakCamera.id hmem)
      have hrec := ih hnd.2 hmem
      by_cases hal : a.alive = true
      · simp only [PipelineHandler.disconnectLoop, hal, if_true]
        refine ⟨?_, ?_⟩
        · rw [List.count_cons_of_ne (by simp [haid.symm]), List.count_cons_of_ne (by simp),
            hrec.1]
        · rw [List.count_cons_of_ne (by simp), List.count_cons_of_ne (by simp [haid.symm]),
            hrec.2]
      · simp only [PipelineHandler.disconnectLoop, if_neg hal]
        exact hrec

/-- C7: on a media-device disconnection the handler first unsubscribes
from the disconnect signal (exactly once, and before anything else); with
no camera references it does nothing further; otherwise every still-alive
camera gets exactly one `Camera::disconnect` and one
`CameraManager::removeCamera` call, an already-destroyed camera gets
neither, and the handler's camera list is empty afterwards. -/
theorem mediaDeviceDisconnected_spec (p : PipelineHandler)
    (hnd : (p.cameras_.map WeakCamera.id).Nodup) :
    ∃ p' evs,
      PipelineHandler.mediaDeviceDisconnected p = (p', evs) ∧
      evs.head? = some Event.signalDisconnected ∧
      evs.count Event.signalDisconnected = 1 ∧
      (p.cameras_ = [] → p' = p ∧ evs = [Event.signalDisconnected]) ∧
      p'.cameras_ = [] ∧
      p'.cameraData_ = p.cameraData_ ∧
      (∀ c ∈ p.cameras_, c.alive = true →
        evs.count (Event.cameraDisconnected c.id) = 1 ∧
        evs.count (Event.removeCamera c.id) = 1) ∧
      (∀ c ∈ p.cameras_, c.alive = false →
        evs.count (Event.cameraDisconnected c.id) = 0 ∧
        evs.count (Event.removeCamera c.id) = 0) := by
  by_cases hemp : p.cameras_ = []
  · refine ⟨p, [Event.signalDisconnected], ?_, rfl, by simp, fun _ => ⟨rfl, rfl⟩, hemp, rfl,
      ?_, ?_⟩
    · simp [PipelineHandler.mediaDeviceDisconnected, hemp]
    · intro c hcmem
      rw [hemp] at hcmem
      simp at hcmem
    · intro c hcmem
      rw [hemp] at hcmem
      simp at hcmem
  · have hne : p.cameras_.isEmpty = false := by
      cases hq : p.cameras_ with
      | nil => exact absurd hq hemp
      | cons a t => rfl
    refine ⟨{ p with cameras_ := [] },
            Event.signalDisconnected :: PipelineHandler.disconnectLoop p.cameras_,
            ?_, rfl, ?_, fun habs => absurd habs hemp, rfl, rfl, ?_, ?_⟩
    · simp [PipelineHandler.mediaDeviceDisconnected, PipelineHandler.disconnect, hne]
    · rw [List.count_cons_self, disconnectLoop_count_signal]
    · intro c hcmem hal
      obtain ⟨h1, h2⟩ := disconnectLoop_count_alive p.cameras_ c hnd hcmem hal
      exact ⟨by rw [List.count_cons_of_ne (by simp), h1],
             by rw [List.count_cons_of_ne (by simp), h2]⟩
    · intro c hcmem hal
      obtain ⟨h1, h2⟩ := disconnectLoop_count_dead p.cameras_ c hnd hcmem hal
      exact ⟨by rw [List.count_cons_of_ne (by simp), h1],
             by rw [List.count_cons_of_ne (by simp), h2]⟩

def exHandler : PipelineHandler :=
  { cameraData_ := [],
    cameras_ := [{ id := 1, alive := true }, { id := 2, alive := false },
                 { id := 3, alive := true }] }

/-- C7 witness: a handler with two live cameras and one already-destroyed
camera. -/
theorem mediaDeviceDisconnected_spec_witness :
    ∃ p' evs,
      PipelineHandler.mediaDeviceDisconnected exHandler = (p', evs) ∧
      evs.head? = some Event.signalDisconnected ∧
      evs.count Event.signalDisconnected = 1 ∧
      (exHandler.cameras_ = [] → p' = exHandler ∧ evs = [Event.signalDisconnected]) ∧
      p'.cameras_ = [] ∧
      p'.cameraData_ = exHandler.cameraData_ ∧
      (∀ c ∈ exHandler.cameras_, c.alive = true →
        evs.count (Event.cameraDisconnected c.id) = 1 ∧
        evs.count (Event.removeCamera c.id) = 1) ∧
      (∀ c ∈ exHandler.cameras_, c.alive = false →
        evs.count (Event.cameraDisconnected c.id) = 0 ∧
        evs.count (Event.removeCamera c.id) = 0) :=
  mediaDeviceDisconnected_spec exHandler (by decide)

theorem cancelPending_nil (r : Request) (h : r.pending_ = []) :
    PipelineHandler.cancelPending r = (r, []) := by
  rw [PipelineHandler.cancelPending]
  split
  · rfl
  · next b t heq =>
    rw [h] at heq
    simp at heq

theorem cancelPending_cons (r : Request) (b : Buffer) (t : List Buffer)
    (h : r.pending_ = b :: t) :
    PipelineHandler.cancelPending r =
      ((PipelineHandler.cancelPending (PipelineHandler.completeBuffer r b.cancel).1).1,
       (PipelineHandler.completeBuffer r b.cancel).2.2 ++
         (PipelineHandler.cancelPending (PipelineHandler.completeBuffer r b.cancel).1).2) := by
  conv_lhs => rw [PipelineHandler.cancelPending]
  split
  · next heq =>
    rw [h] at heq
    simp at heq
  · next b' t' heq =>
    rw [h] at heq
    cases heq
    rfl

theorem cancelPending_spec : ∀ (l : List Buffer) (r : Request), r.pending_ = l →
    (l.map Buffer.id).Nodup →
    PipelineHandler.cancelPending r =
      ({ r with pending_ := [] },
       l.map (fun b => Event.bufferCompleted r.id b.id BufferStatus.BufferCancelled)) := by
  intro l
  induction l with
  | nil =>
    intro r h _
    rw [cancelPending_nil r h]
    cases r with
    | mk i pnd st =>
      replace h : pnd = [] := h
      subst h
      rfl
  | cons b t ih =>
    intro r h hnd
    simp only [List.map_cons, List.nodup_cons] at hnd
    rw [cancelPending_cons r b t h]
    have hfil : r.pending_.filter (fun x => x.id ≠ b.id) = t := by
      rw [h, List.filter_cons_of_neg (by simp), filter_ne_id_of_not_mem t b.id hnd.1]
    have hstep : (PipelineHandler.completeBuffer r b.cancel).1 = { r with pending_ := t } := by
      simp only [PipelineHandler.completeBuffer, Request.completeBuffer, Buffer.cancel]
      rw [hfil]
    rw [hstep, ih { r with pending_ := t } rfl hnd.2]
    simp [PipelineHandler.completeBuffer, Request.completeBuffer, Buffer.cancel]

/-- The per-request event block that `stop` emits: one `bufferCompleted`
notification with cancelled status per still-pending buffer, in pending
order, followed by the `requestComplete` notification with cancelled
status. -/
def requestDrainEvents (r : Request) : List Event :=
  r.pending_.map (fun b => Event.bufferCompleted r.id b.id BufferStatus.BufferCancelled) ++
    [Event.requestComplete r.id RequestStatus.RequestCancelled]

theorem stopLoop_spec (queue : List Request)
    (hbuf : ∀ r ∈ queue, (r.pending_.map Buffer.id).Nodup) :
    PipelineHandler.stopLoop queue =
      (queue.map (fun r => { r with pending_ := [], status := RequestStatus.RequestCancelled }),
       (queue.map requestDrainEvents).flatten) := by
  induction queue with
  | nil => rfl
  | cons r rest ih =>
    have hr := hbuf r (List.mem_cons_self r rest)
    have hrest : ∀ x ∈ rest, (x.pending_.map Buffer.id).Nodup :=
      fun x hx => hbuf x (List.mem_cons_of_mem r hx)
    simp only [PipelineHandler.stopLoop]
    rw [cancelPending_spec r.pending_ r rfl hr, ih hrest]
    simp [requestDrainEvents, Request.complete]

/-- The request a notification is about, when there is one. -/
def eventReqId : Event → Option Nat
  | Event.bufferCompleted reqId _ _ => some reqId
  | Event.requestComplete reqId _ => some reqId
  | _ => none

theorem mem_requestDrainEvents_reqId (r : Request) (e : Event)
    (he : e ∈ requestDrainEvents r) : eventReqId e = some r.id := by
  unfold requestDrainEvents at he
  rcases List.mem_append.mp he with he | he
  · obtain ⟨b, hb, rfl⟩ := List.mem_map.mp he
    rfl
  · simp only [List.mem_singleton] at he
    subst he
    rfl

theorem requestDrainEvents_nodup (r : Request)
    (hnd : (r.pending_.map Buffer.id).Nodup) :
    (requestDrainEvents r).Nodup := by
  unfold requestDrainEvents
  rw [List.nodup_append]
  refine ⟨?_, by simp, ?_⟩
  · have hmm : r.pending_.map
        (fun b => Event.bufferCompleted r.id b.id BufferStatus.BufferCancelled) =
        (r.pending_.map Buffer.id).map
          (fun i => Event.bufferCompleted r.id i BufferStatus.BufferCancelled) := by
      rw [List.map_map]
      rfl
    rw [hmm]
    exact List.Nodup.map (fun a b hab => by simpa using hab) hnd
  · intro e he
    obtain ⟨b, hb, rfl⟩ := List.mem_map.mp he
    simp

theorem stopEvents_nodup (queue : List Request)
    (hreq : (queue.map Request.id).Nodup)
    (hbuf : ∀ r ∈ queue, (r.pending_.map Buffer.id).Nodup) :
    ((queue.map requestDrainEvents).flatten).Nodup := by
  rw [List.nodup_flatten]
  constructor
  · intro l hl
    obtain ⟨r, hr, rfl⟩ := List.mem_map.mp hl
    exact requestDrainEvents_nodup r (hbuf r hr)
  · rw [List.pairwise_map]
    have hpair : queue.Pairwise (fun a b => a.id ≠ b.id) := List.pairwise_map.mp hreq
    refine hpair.imp ?_
    intro a b hab e hea heb
    have h1 := mem_requestDrainEvents_reqId a e hea
    have h2 := mem_requestDrainEvents_reqId b e heb
    rw [h1] at h2
    exact hab (Option.some.injEq _ _ ▸ h2)

/-- Recognises the `requestComplete` notification of a cancelled request. -/
def isCancelNotification : Event → Bool
  | Event.requestComplete _ RequestStatus.RequestCancelled => true
  | _ => false

theorem stopEvents_countP (queue : List Request) :
    ((queue.map requestDrainEvents).flatten).countP isCancelNotification =
      queue.length := by
  induction queue with
  | nil => rfl
  | cons r rest ih =>
    simp only [List.map_cons, List.flatten_cons, List.countP_append, ih, List.length_cons]
    have h1 : (requestDrainEvents r).countP isCancelNotification = 1 := by
      unfold requestDrainEvents
      rw [List.countP_append]
      have hz : (r.pending_.map
          (fun b => Event.bufferCompleted r.id b.id BufferStatus.BufferCancelled)).countP
          isCancelNotification = 0 := by
        refine List.countP_eq_zero.mpr ?_
        intro e he
        obtain ⟨b, hb, rfl⟩ := List.mem_map.mp he
        simp [isCancelNotification]
      rw [hz]
      rfl
    rw [h1]
    omega

theorem stopEvents_count_buffer (queue : List Request)
    (hreq : (queue.map Request.id).Nodup)
    (hbuf : ∀ r ∈ queue, (r.pending_.map Buffer.id).Nodup)
    (r : Request) (hr : r ∈ queue) (b : Buffer) (hb : b ∈ r.pending_) :
    ((queue.map requestDrainEvents).flatten).count
      (Event.bufferCompleted r.id b.id BufferStatus.BufferCancelled) = 1 := by
  apply List.count_eq_one_of_mem (stopEvents_nodup queue hreq hbuf)
  refine List.mem_flatten.mpr ⟨requestDrainEvents r,
    List.mem_map_of_mem requestDrainEvents hr, ?_⟩
  unfold requestDrainEvents
  exact List.mem_append_left _
    (List.mem_map_of_mem (fun x => Event.bufferCompleted r.id x.id BufferStatus.BufferCancelled) hb)

/-- C1: `PipelineHandler::stop` fully drains the queue in FIFO order: for
each queued request, in queue order, it cancels and completion-signals
every still-pending buffer and then marks the request cancelled and signals
the camera; afterwards the queue is empty, exactly N request-cancellation
notifications have fired for N queued requests, exactly one
buffer-cancellation notification has fired per previously-pending buffer,
and no notification has fired more than once. -/
theorem stop_spec (data : CameraData)
    (hreq : (data.queuedRequests_.map Request.id).Nodup)
    (hbuf : ∀ r ∈ data.queuedRequests_, (r.pending_.map Buffer.id).Nodup) :
    ∃ d' done evs,
      PipelineHandler.stop data = (d', done, evs) ∧
      d'.queuedRequests_ = [] ∧
      done = data.queuedRequests_.map
          (fun r => { r with pending_ := [], status := RequestStatus.RequestCancelled }) ∧
      evs = (data.queuedRequests_.map requestDrainEvents).flatten ∧
      evs.Nodup ∧
      evs.countP isCancelNotification = data.queuedRequests_.length ∧
      (∀ r ∈ data.queuedRequests_, ∀ b ∈ r.pending_,
        evs.count (Event.bufferCompleted r.id b.id BufferStatus.BufferCancelled) = 1) := by
  refine ⟨{ data with queuedRequests_ := [] },
          data.queuedRequests_.map
            (fun r => { r with pending_ := [], status := RequestStatus.RequestCancelled }),
          (data.queuedRequests_.map requestDrainEvents).flatten,
          ?_, rfl, rfl, rfl,
          stopEvents_nodup _ hreq hbuf,
          stopEvents_countP _,
          fun r hr b hb => stopEvents_count_buffer _ hreq hbuf r hr b hb⟩
  unfold PipelineHandler.stop
  rw [stopLoop_spec data.queuedRequests_ hbuf]

def exStopData : CameraData :=
  { camera_ := some 9,
    queuedRequests_ :=
      [{ id := 1,
         pending_ := [{ id := 10, status := BufferStatus.BufferPending },
                      { id := 11, status := BufferStatus.BufferPending }],
         status := RequestStatus.RequestPending },
       { id := 2,
         pending_ := [{ id := 20, status := BufferStatus.BufferPending }],
         status := RequestStatus.RequestPending }] }

/-- C1 witness: stopping a camera with two queued requests holding two and
one pending buffers. -/
theorem stop_spec_witness :
    ∃ d' done evs,
      PipelineHandler.stop exStopData = (d', done, evs) ∧
      d'.queuedRequests_ = [] ∧
      done = exStopData.queuedRequests_.map
          (fun r => { r with pending_ := [], status := RequestStatus.RequestCancelled }) ∧
      evs = (exStopData.queuedRequests_.map requestDrainEvents).flatten ∧
      evs.Nodup ∧
      evs.countP isCancelNotification = exStopData.queuedRequests_.length ∧
      (∀ r ∈ exStopData.queuedRequests_, ∀ b ∈ r.pending_,
        evs.count (Event.bufferCompleted r.id b.id BufferStatus.BufferCancelled) = 1) :=
  stop_spec exStopData (by decide) (by decide)

end Libcam
